import Mathlib

/-!
Verification of the card-parser PNG chunk scanner/injector and the card
representation pipeline.

Bytes are modelled as `Nat` values (well-formed data keeps them below 256);
byte streams are `List Nat`.  Machine `uint32` arithmetic is modelled with
explicit `% 4294967296` where the Go code truncates.  Fallible operations
return `Except Unit`.  The Go `character.Revision` type is `int`, modelled
as `Int`.
-/

namespace CardParser

/-! ## Binary layout constants (src/png/png_scanner.go) -/

/-- Size of the PNG standard header in bytes. -/
def headerSize : Nat := 8

/-- Size of the IHDR header in bytes. -/
def ihdrSize : Nat := 25

/-- headerSize + ihdrSize: the fixed mandatory prefix read by FromImage. -/
def fullIhdrSize : Nat := headerSize + ihdrSize

/-- The standard PNG header bytes. -/
def pngHeader : List Nat := [0x89, 0x50, 0x4E, 0x47, 0x0D, 0x0A, 0x1A, 0x0A]

/-- Discriminator of a tEXt chunk (0x74455874). -/
def chunkTextTypeCode : Nat := 0x74455874

/-- The 6-byte keyword tagging a revision-2 payload. -/
def charaKeyword : List Nat := [0x63, 0x68, 0x61, 0x72, 0x61, 0x00]

/-- The 5-byte keyword tagging a revision-3 payload. -/
def ccv3Keyword : List Nat := [0x63, 0x63, 0x76, 0x33, 0x00]

/-! Revision values (src/unnamed/part_004, Go `type Revision int`). -/

/-- Revision of a V2 chara card. -/
def RevisionV2 : Int := 2

/-- Revision of a V3 chara card. -/
def RevisionV3 : Int := 3

/-- The `keywords` map: revision -> keyword bytes; `none` models a missing
Go map key (nil slice). -/
def keywords (r : Int) : Option (List Nat) :=
  if r = RevisionV2 then some charaKeyword
  else if r = RevisionV3 then some ccv3Keyword
  else none

/-- The `keywordsLength` map; a missing Go map key yields the zero value 0. -/
def keywordsLength (r : Int) : Nat :=
  if r = RevisionV2 then 6
  else if r = RevisionV3 then 5
  else 0

/-! ## Big-endian u32 serialization -/

/-- Write a u32 as four big-endian bytes (Go `binary.Write`, value already
truncated to 32 bits by the caller where needed). -/
def be32 (n : Nat) : List Nat :=
  [n / 16777216 % 256, n / 65536 % 256, n / 256 % 256, n % 256]

/-- Read a big-endian u32 from the first four bytes of a stream
(Go `binary.Read`); callers check that four bytes are present. -/
def readBE32 (l : List Nat) : Nat :=
  l.headD 0 * 16777216 + (l.drop 1).headD 0 * 65536 +
    (l.drop 2).headD 0 * 256 + (l.drop 3).headD 0

theorem be32_length (n : Nat) : (be32 n).length = 4 := by
  simp [be32]

theorem readBE32_be32_append (n : Nat) (rest : List Nat) (h : n < 4294967296) :
    readBE32 (be32 n ++ rest) = n := by
  simp only [be32, readBE32, List.cons_append, List.nil_append, List.headD_cons,
    List.drop_succ_cons, List.drop_zero]
  omega

theorem drop4_be32_append (n : Nat) (rest : List Nat) :
    (be32 n ++ rest).drop 4 = rest := by
  simp [be32]

theorem be32_append_ne_nil (n : Nat) (rest : List Nat) :
    be32 n ++ rest ≠ [] := by
  simp [be32]

theorem length_be32_append (n : Nat) (rest : List Nat) :
    (be32 n ++ rest).length = 4 + rest.length := by
  simp [be32]
  omega

/-! ## Data model (src/png/card.go, src/unnamed/part_004) -/

/-- `pngData`: the immutable Header/Body pair of byte regions. -/
structure PngData where
  Header : List Nat
  Body : List Nat
deriving DecidableEq, Repr

/-- `RawCard`: encoded chara PNG card. -/
structure RawCard where
  pngData : PngData
  RawCharaData : List Nat
  Revision : Int
deriving DecidableEq, Repr

/-- `RawJsonCard`: encoded chara PNG card with JSON data. -/
structure RawJsonCard where
  pngData : PngData
  RawJsonData : List Nat
  Revision : Int
deriving DecidableEq, Repr

/-! ## Selection policy (src/png/api.go) -/

/-- The two criteria functions stored in the named scan modes; a closed
enumeration since the code only ever stores these two predicates. -/
inductive Criteria where
  | larger
  | higherVersion
deriving DecidableEq, Repr

/-- `isLarger`: accept if `len(chunk) - keywordsLength[revision] >=
len(rawCard.RawCharaData)` (Go `int` arithmetic, hence `Int` here). -/
def isLarger (rawCard : RawCard) (chunk : List Nat) (revision : Int) : Bool :=
  decide ((chunk.length : Int) - (keywordsLength revision : Int) ≥
    (rawCard.RawCharaData.length : Int))

/-- `isHigherVersion`: accept if `revision >= rawCard.Revision`. -/
def isHigherVersion (rawCard : RawCard) (_chunk : List Nat) (revision : Int) : Bool :=
  decide (revision ≥ rawCard.Revision)

/-- Dispatch a `Criteria` value to its predicate. -/
def evalCriteria : Criteria → RawCard → List Nat → Int → Bool
  | .larger => isLarger
  | .higherVersion => isHigherVersion

/-- `ScanMode`: deep-scan flag plus the acceptance criteria. -/
structure ScanMode where
  deepScan : Bool
  criteria : Criteria
deriving DecidableEq, Repr

/-- `First` scan mode. -/
def First : ScanMode := { deepScan := false, criteria := .larger }

/-- `LastVersion` scan mode. -/
def LastVersion : ScanMode := { deepScan := true, criteria := .higherVersion }

/-- `LastLongest` scan mode. -/
def LastLongest : ScanMode := { deepScan := true, criteria := .larger }

/-- `DefaultScanMode` is `First`. -/
def DefaultScanMode : ScanMode := First

/-! ## Chunk classification (src/png/png_scanner.go, isCharaChunk) -/

/-- Boolean byte-prefix test (Go `bytes.HasPrefix`). -/
def hasPrefixB : List Nat → List Nat → Bool
  | [], _ => true
  | _ :: _, [] => false
  | a :: as, b :: bs => a == b && hasPrefixB as bs

/-- `isCharaChunk`: classify chunk content, returning `(revision, isChara)`.
The Go code ranges over the `keywords` map in unspecified order; since the
two keywords differ at byte index 1 no content can match both, so checking
V2 then V3 is equivalent to any iteration order. -/
def isCharaChunk (chunkData : List Nat) : Int × Bool :=
  if chunkData = [] then (RevisionV2, false)
  else if hasPrefixB charaKeyword chunkData then (RevisionV2, true)
  else if hasPrefixB ccv3Keyword chunkData then (RevisionV3, true)
  else (RevisionV2, false)

/-! ## The scanning processor (src/png/png_scanner.go)

`scanChunks mode card stream` models the `Get` loop over `processChunk`
together with `Get`'s handling of `io.EOF`: every place where the Go code
surfaces `io.EOF` from `processChunk` (end of stream at a chunk-length
read, a zero-byte read of the type code or of chunk content, a short
`io.CopyN`, or the deliberate `deepScan` short-circuit) is modelled by
returning `.ok` with the remaining bytes copied per `Get`'s `io.Copy`.
Genuine stream errors (`ErrUnexpectedEOF` on partial reads) are `.error`. -/
/-- The candidate-acceptance block of `processChunk` (png_scanner.go lines
221-225): if the active criteria accepts the chunk against the held card,
replace the held revision and keyword-stripped payload. -/
def acceptChunk (mode : ScanMode) (card : RawCard) (content : List Nat) : RawCard :=
  if evalCriteria mode.criteria card content (isCharaChunk content).1 then
    { pngData := card.pngData,
      RawCharaData := content.drop (keywordsLength (isCharaChunk content).1),
      Revision := (isCharaChunk content).1 }
  else card

def scanLoop : Nat → ScanMode → RawCard → List Nat → Except Unit RawCard
  | 0, _, card, stream =>
    -- fuel exhaustion; unreachable when the fuel is at least the stream
    -- length, which is how `scanChunks` instantiates it
    if stream = [] then .ok card else .error ()
  | fuel + 1, mode, card, stream =>
  if stream = [] then
    -- binary.Read of the length hits io.EOF: Get finalizes successfully
    .ok card
  else if stream.length < 4 then
    -- partial length read: ErrUnexpectedEOF
    .error ()
  else if stream.drop 4 = [] then
    -- binary.Read of the type code hits io.EOF: Get finalizes
    .ok card
  else if (stream.drop 4).length < 4 then
    .error ()
  else if readBE32 (stream.drop 4) ≠ chunkTextTypeCode then
    -- streamCopyChunk: re-emit length, type, then CopyN(length+4)
    if ((stream.drop 4).drop 4).length < readBE32 stream + 4 then
      -- CopyN comes up short and returns io.EOF: the partial copy is
      -- already in the body buffer and Get finalizes successfully
      .ok { card with pngData :=
        { Header := card.pngData.Header,
          Body := card.pngData.Body ++ be32 (readBE32 stream) ++
            be32 (readBE32 (stream.drop 4)) ++ (stream.drop 4).drop 4 } }
    else
      scanLoop fuel mode
        { card with pngData :=
          { Header := card.pngData.Header,
            Body := card.pngData.Body ++ be32 (readBE32 stream) ++
              be32 (readBE32 (stream.drop 4)) ++
              ((stream.drop 4).drop 4).take (readBE32 stream + 4) } }
        (((stream.drop 4).drop 4).drop (readBE32 stream + 4))
  else if ((stream.drop 4).drop 4).length < readBE32 stream then
    if (stream.drop 4).drop 4 = [] then
      -- io.ReadFull reads nothing: io.EOF, Get finalizes
      .ok card
    else
      -- partial content read: ErrUnexpectedEOF
      .error ()
  else if ((((stream.drop 4).drop 4).drop (readBE32 stream)).length) < 4 then
    -- CRC discard CopyN comes up short: io.EOF, Get finalizes
    .ok card
  else if (isCharaChunk (((stream.drop 4).drop 4).take (readBE32 stream))).2 = false then
    -- not a chara chunk: discard it entirely
    scanLoop fuel mode card ((((stream.drop 4).drop 4).drop (readBE32 stream)).drop 4)
  else if mode.deepScan = false ∧
      (acceptChunk mode card
        (((stream.drop 4).drop 4).take (readBE32 stream))).RawCharaData ≠ [] then
    -- deliberate io.EOF: Get stream-copies the tail into Body
    .ok { acceptChunk mode card (((stream.drop 4).drop 4).take (readBE32 stream)) with
      pngData :=
        { Header := (acceptChunk mode card
            (((stream.drop 4).drop 4).take (readBE32 stream))).pngData.Header,
          Body := (acceptChunk mode card
              (((stream.drop 4).drop 4).take (readBE32 stream))).pngData.Body ++
            (((stream.drop 4).drop 4).drop (readBE32 stream)).drop 4 } }
  else
    scanLoop fuel mode
      (acceptChunk mode card (((stream.drop 4).drop 4).take (readBE32 stream)))
      ((((stream.drop 4).drop 4).drop (readBE32 stream)).drop 4)

/-- The scanner's chunk loop: the fuel `stream.length` is an upper bound on
the number of iterations, since every iteration that recurses consumes at
least eight bytes. -/
def scanChunks (mode : ScanMode) (card : RawCard) (stream : List Nat) :
    Except Unit RawCard :=
  scanLoop stream.length mode card stream

theorem scanLoop_nil (fuel : Nat) (mode : ScanMode) (card : RawCard) :
    scanLoop fuel mode card [] = .ok card := by
  cases fuel <;> simp [scanLoop]

/-- The loop's result does not depend on the fuel, as long as the fuel
dominates the stream length. -/
theorem scanLoop_fuel_eq :
    ∀ (fuel₁ fuel₂ : Nat) (mode : ScanMode) (card : RawCard) (stream : List Nat),
      stream.length ≤ fuel₁ → stream.length ≤ fuel₂ →
      scanLoop fuel₁ mode card stream = scanLoop fuel₂ mode card stream := by
  intro fuel₁
  induction fuel₁ with
  | zero =>
    intro fuel₂ mode card stream h1 _h2
    have : stream = [] := List.eq_nil_of_length_eq_zero (Nat.le_zero.mp h1)
    subst this
    rw [scanLoop_nil, scanLoop_nil]
  | succ g ih =>
    intro fuel₂ mode card stream h1 h2
    by_cases hnil : stream = []
    · subst hnil
      rw [scanLoop_nil, scanLoop_nil]
    · have hpos : 0 < stream.length := List.length_pos.mpr hnil
      cases fuel₂ with
      | zero => omega
      | succ h =>
        show scanLoop (g + 1) mode card stream = scanLoop (h + 1) mode card stream
        rw [scanLoop, scanLoop]
        rw [if_neg hnil, if_neg hnil]
        by_cases c2 : stream.length < 4
        · rw [if_pos c2, if_pos c2]
        rw [if_neg c2, if_neg c2]
        by_cases c3 : stream.drop 4 = []
        · rw [if_pos c3, if_pos c3]
        rw [if_neg c3, if_neg c3]
        by_cases c4 : (stream.drop 4).length < 4
        · rw [if_pos c4, if_pos c4]
        rw [if_neg c4, if_neg c4]
        by_cases c5 : readBE32 (stream.drop 4) ≠ chunkTextTypeCode
        · rw [if_pos c5, if_pos c5]
          by_cases c6 : ((stream.drop 4).drop 4).length < readBE32 stream + 4
          · rw [if_pos c6, if_pos c6]
          rw [if_neg c6, if_neg c6]
          -- non-tEXt chunk fully copied; recurse on the remainder
          apply ih <;> (simp only [List.length_drop] at *; omega)
        rw [if_neg c5, if_neg c5]
        by_cases c7 : ((stream.drop 4).drop 4).length < readBE32 stream
        · rw [if_pos c7, if_pos c7]
        rw [if_neg c7, if_neg c7]
        by_cases c9 : (((stream.drop 4).drop 4).drop (readBE32 stream)).length < 4
        · rw [if_pos c9, if_pos c9]
        rw [if_neg c9, if_neg c9]
        by_cases c10 : (isCharaChunk
            (((stream.drop 4).drop 4).take (readBE32 stream))).2 = false
        · rw [if_pos c10, if_pos c10]
          -- discarded tEXt chunk; recurse on the remainder
          apply ih <;> (simp only [List.length_drop] at *; omega)
        rw [if_neg c10, if_neg c10]
        by_cases c11 : mode.deepScan = false ∧ (acceptChunk mode card
            (((stream.drop 4).drop 4).take (readBE32 stream))).RawCharaData ≠ []
        · rw [if_pos c11, if_pos c11]
        rw [if_neg c11, if_neg c11]
        -- surviving candidate without short-circuit; recurse
        apply ih <;> (simp only [List.length_drop] at *; omega)

theorem scanChunks_eq_scanLoop (fuel : Nat) (mode : ScanMode) (card : RawCard)
    (stream : List Nat) (h : stream.length ≤ fuel) :
    scanChunks mode card stream = scanLoop fuel mode card stream :=
  scanLoop_fuel_eq stream.length fuel mode card stream (Nat.le_refl _) h

/-- `Get` on a scanning processor: start from an empty card holding the
already-read header and process the remaining stream. -/
def scanGet (mode : ScanMode) (header : List Nat) (stream : List Nat) :
    Except Unit RawCard :=
  scanChunks mode
    { pngData := { Header := header, Body := [] },
      RawCharaData := [], Revision := 0 } stream

/-- `FromBytes(data).ScanMode(mode).Get()` on the scanning path: `FromImage`
reads the first `fullIhdrSize` bytes as the header and scans the rest.
The claims' hypotheses carry `pngScannable`, the condition under which
`FromImage` selects the scanning processor. -/
def fromBytesScan (mode : ScanMode) (data : List Nat) : Except Unit RawCard :=
  scanGet mode (data.take fullIhdrSize) (data.drop fullIhdrSize)

/-- The condition under which `FromImage` hands the stream to the scanning
processor: a full mandatory prefix is available and starts with the PNG
signature. -/
def pngScannable (data : List Nat) : Prop :=
  fullIhdrSize ≤ data.length ∧ data.take headerSize = pngHeader

/-! ## CRC32 (IEEE) as used by Go `hash/crc32` -/

/-- The reversed IEEE polynomial. -/
def crcPoly : Nat := 0xEDB88320

/-- One bit-step of the table generator. -/
def crcIter (x : Nat) : Nat :=
  if x % 2 = 1 then (x / 2) ^^^ crcPoly else x / 2

/-- One entry of the IEEE CRC table: eight bit-steps on the byte value. -/
def crcTableEntry (b : Nat) : Nat :=
  crcIter (crcIter (crcIter (crcIter (crcIter (crcIter (crcIter (crcIter b)))))))

/-- Process one data byte: `crc = tab[byte(crc) ^ b] ^ (crc >> 8)`. -/
def crcUpdateByte (c b : Nat) : Nat :=
  crcTableEntry ((c % 256) ^^^ (b % 256)) ^^^ (c >>> 8)

/-- Fold the byte-step over a buffer. -/
def crcFold (c : Nat) (p : List Nat) : Nat :=
  p.foldl crcUpdateByte c

/-- 32-bit complement (`^crc` on a `uint32`). -/
def compl32 (c : Nat) : Nat := c ^^^ 4294967295

/-- Go's `crc32.update`: complement, fold, complement.  A `crc32.NewIEEE`
digest starts at 0 and `Sum32` returns the current value, so chained
`Write` calls are chained `crcGoUpdate` applications. -/
def crcGoUpdate (c : Nat) (p : List Nat) : Nat :=
  compl32 (crcFold (compl32 c) p)

/-- One-shot CRC32 (IEEE) of a buffer, as a fresh digest computes it. -/
def crc32 (p : List Nat) : Nat := crcGoUpdate 0 p

theorem compl32_compl32 (c : Nat) : compl32 (compl32 c) = c := by
  simp [compl32, Nat.xor_assoc]

theorem crcFold_append (c : Nat) (p q : List Nat) :
    crcFold (crcFold c p) q = crcFold c (p ++ q) := by
  simp [crcFold, List.foldl_append]

theorem crcGoUpdate_append (c : Nat) (p q : List Nat) :
    crcGoUpdate (crcGoUpdate c p) q = crcGoUpdate c (p ++ q) := by
  simp [crcGoUpdate, compl32_compl32, crcFold_append]

/-! ## Chunk injection (src/png/card.go, streamCharaChunk / ToImage) -/

/-- The bytes `streamCharaChunk` writes for a card: nothing when the payload
is empty, otherwise length, tEXt type, keyword, payload and trailing CRC,
with the CRC accumulated over the type code, keyword and payload exactly as
the Go `io.MultiWriter` streams them into the hasher. -/
def streamCharaChunkBytes (rc : RawCard) : List Nat :=
  if rc.RawCharaData = [] then []
  else
    let keyword := (keywords rc.Revision).getD charaKeyword
    let chunkDataLen := (keyword.length + rc.RawCharaData.length) % 4294967296
    let crc0 := crcGoUpdate 0 (be32 chunkTextTypeCode)
    let crc1 := crcGoUpdate crc0 keyword
    let crc2 := crcGoUpdate crc1 rc.RawCharaData
    be32 chunkDataLen ++ be32 chunkTextTypeCode ++ keyword ++
      rc.RawCharaData ++ be32 crc2

/-- `ToImage` serialized to a byte list: Header, the chara chunk (if any),
then Body. -/
def toImageBytes (rc : RawCard) : List Nat :=
  rc.pngData.Header ++ streamCharaChunkBytes rc ++ rc.pngData.Body

/-! ## Standard base64 encoding (Go `encoding/base64` StdEncoding) -/

/-- The standard base64 alphabet, index to ASCII byte. -/
def b64char (n : Nat) : Nat :=
  if n < 26 then 65 + n
  else if n < 52 then 97 + (n - 26)
  else if n < 62 then 48 + (n - 52)
  else if n = 62 then 43
  else 47

/-- Standard base64 with `=` padding (byte 61), three input bytes per four
output characters. -/
def b64encode : List Nat → List Nat
  | [] => []
  | [a] => [b64char (a / 4 % 64), b64char (a % 4 * 16), 61, 61]
  | [a, b] => [b64char (a / 4 % 64), b64char (a % 4 * 16 + b / 16 % 16),
      b64char (b % 16 * 4), 61]
  | a :: b :: c :: rest =>
      b64char (a / 4 % 64) :: b64char (a % 4 * 16 + b / 16 % 16) ::
        b64char (b % 16 * 4 + c / 64 % 4) :: b64char (c % 64) :: b64encode rest

theorem b64encode_ne_nil (j : List Nat) (h : j ≠ []) : b64encode j ≠ [] := by
  match j with
  | [] => exact absurd rfl h
  | [a] => simp [b64encode]
  | [a, b] => simp [b64encode]
  | a :: b :: c :: rest => simp [b64encode]

/-! ## Character sheet model (src/unnamed/part_004, src/character) -/

/-- Spec string of a V2 chara card. -/
def SpecV2 : String := "chara_card_v2"

/-- Spec string of a V3 chara card. -/
def SpecV3 : String := "chara_card_v3"

/-- Version string of a V2 chara card. -/
def VersionV2 : String := "2.0"

/-- Version string of a V3 chara card. -/
def VersionV3 : String := "3.0"

/-- `Stamp`: a mapping entry from revision to spec/version. -/
structure Stamp where
  Spec : String
  Version : String
  Revision : Int
deriving DecidableEq, Repr

/-- The `Stamps` map; a missing Go map key yields the zero-value `Stamp`
(empty strings, revision 0). -/
def Stamps (r : Int) : Stamp :=
  if r = RevisionV2 then { Spec := SpecV2, Version := VersionV2, Revision := RevisionV2 }
  else if r = RevisionV3 then { Spec := SpecV3, Version := VersionV3, Revision := RevisionV3 }
  else { Spec := "", Version := "", Revision := 0 }

/-- Stand-in for the external schema's `character.Content` record: the
claims under verification never inspect its fields, only carry it through,
so it is represented as an opaque association list. -/
structure Content where
  fields : List (String × String)
deriving DecidableEq, Repr

/-- `character.Sheet`: spec, version, revision and the schema content. -/
structure Sheet where
  Spec : String
  Version : String
  Revision : Int
  Content : Content
deriving DecidableEq, Repr

/-- `Sheet.SetRevision`: stamp the sheet with the given revision's spec and
version (zero-value stamp for an unknown revision). -/
def Sheet.SetRevision (s : Sheet) (revision : Int) : Sheet :=
  let stamp := Stamps revision
  { s with Revision := revision, Spec := stamp.Spec, Version := stamp.Version }

/-- `character.DefaultSheet`: the zero sheet stamped with the given
revision. -/
def DefaultSheet (revision : Int) : Sheet :=
  Sheet.SetRevision { Spec := "", Version := "", Revision := 0, Content := { fields := [] } }
    revision

/-- `CharacterCard`: decoded chara PNG card; the Go `*character.Sheet` is
nil-able, hence `Option`. -/
structure CharacterCard where
  pngData : PngData
  Sheet : Option Sheet
deriving DecidableEq, Repr

/-! ## Card representation pipeline (src/png/card.go)

`character.FromBytes` and `Sheet.ToBytes` delegate the actual JSON work to
an external collaborator (`jsonx`/Sonic); they are passed in as explicit
function parameters so each theorem quantifies over the collaborator. -/

/-- `RawJsonCard.ToRaw`: base64-encode the JSON data; empty input yields an
empty payload (the Go code never touches `RawCharaData` in that case). -/
def RawJsonCard.ToRaw (rjc : RawJsonCard) : RawCard :=
  if rjc.RawJsonData = [] then
    { pngData := rjc.pngData, RawCharaData := [], Revision := rjc.Revision }
  else
    { pngData := rjc.pngData, RawCharaData := b64encode rjc.RawJsonData,
      Revision := rjc.Revision }

/-- `RawJsonCard.ToCharacter`: empty JSON data yields
`DefaultSheet(RevisionV2)`; otherwise decode through the collaborator and
overwrite the sheet's revision, spec and version from the held revision's
stamp. -/
def RawJsonCard.ToCharacter (fromBytes : List Nat → Except Unit Sheet)
    (rjc : RawJsonCard) : Except Unit CharacterCard :=
  if rjc.RawJsonData = [] then
    .ok { pngData := rjc.pngData, Sheet := some (DefaultSheet RevisionV2) }
  else
    match fromBytes rjc.RawJsonData with
    | .error e => .error e
    | .ok sheet =>
      let stamp := Stamps rjc.Revision
      .ok { pngData := rjc.pngData,
            Sheet := some { sheet with
                              Revision := rjc.Revision,
                              Spec := stamp.Spec,
                              Version := stamp.Version } }

/-- `CharacterCard.ToRawJson`: a nil sheet yields an empty-JSON card with
zero revision; otherwise JSON-encode through the collaborator and carry the
sheet's revision. -/
def CharacterCard.ToRawJson (toBytes : CardParser.Sheet → Except Unit (List Nat))
    (cc : CharacterCard) : Except Unit RawJsonCard :=
  match cc.Sheet with
  | none => .ok { pngData := cc.pngData, RawJsonData := [], Revision := 0 }
  | some sheet =>
    match toBytes sheet with
    | .error e => .error e
    | .ok jsonData =>
      .ok { pngData := cc.pngData, RawJsonData := jsonData,
            Revision := sheet.Revision }

/-- `CharacterCard.Encode`: JSON-encode then base64-encode. -/
def CharacterCard.Encode (toBytes : CardParser.Sheet → Except Unit (List Nat))
    (cc : CharacterCard) : Except Unit RawCard :=
  match cc.ToRawJson toBytes with
  | .error e => .error e
  | .ok rjc => .ok rjc.ToRaw

/-! ## Well-formed chunk streams

A PNG stream after the mandatory prefix is a sequence of chunks; the claims
about chunk selection quantify over streams of this shape. -/

/-- A single serialized chunk: type code, content, and 4 trailing CRC bytes
(the scanner never verifies the CRC, so it is arbitrary). -/
structure Chunk where
  typeCode : Nat
  content : List Nat
  crc : List Nat
deriving DecidableEq, Repr

/-- A chunk representable in the wire format: u32-sized type and length and
a 4-byte CRC. -/
def Chunk.wf (c : Chunk) : Prop :=
  c.typeCode < 4294967296 ∧ c.content.length < 4294967296 ∧ c.crc.length = 4

instance decidableChunkWf (c : Chunk) : Decidable c.wf :=
  inferInstanceAs (Decidable (c.typeCode < 4294967296 ∧
    c.content.length < 4294967296 ∧ c.crc.length = 4))

/-- Wire form of one chunk: length, type, content, CRC. -/
def serializeChunk (c : Chunk) : List Nat :=
  be32 c.content.length ++ be32 c.typeCode ++ c.content ++ c.crc

/-- Wire form of a chunk sequence. -/
def serializeChunks : List Chunk → List Nat
  | [] => []
  | c :: cs => serializeChunk c ++ serializeChunks cs

/-- A chunk the scanner recognizes as carrying a payload: a tEXt chunk
whose content starts with a known keyword. -/
def Chunk.isCandidate (c : Chunk) : Bool :=
  (c.typeCode == chunkTextTypeCode) && (isCharaChunk c.content).2

/-- Revision the scanner assigns to the chunk's content. -/
def Chunk.revision (c : Chunk) : Int := (isCharaChunk c.content).1

/-- The chunk's payload with the keyword prefix stripped. -/
def Chunk.stripped (c : Chunk) : List Nat :=
  c.content.drop (keywordsLength (isCharaChunk c.content).1)

/-- Effect of one candidate chunk on the held card: replace the held
revision and payload when the active criteria accepts. -/
def stepCard (mode : ScanMode) (card : RawCard) (c : Chunk) : RawCard :=
  acceptChunk mode card c.content

theorem serializeChunk_append_eq (c : Chunk) (rest : List Nat) :
    serializeChunk c ++ rest =
      be32 c.content.length ++
        (be32 c.typeCode ++ (c.content ++ (c.crc ++ rest))) := by
  simp [serializeChunk, List.append_assoc]

/-- Scanning a serialized non-tEXt chunk copies it verbatim into the body
and continues. -/
theorem scanChunks_cons_nonText (mode : ScanMode) (card : RawCard) (c : Chunk)
    (rest : List Nat) (hwf : c.wf) (ht : c.typeCode ≠ chunkTextTypeCode) :
    scanChunks mode card (serializeChunk c ++ rest) =
      scanChunks mode
        { card with pngData :=
          { Header := card.pngData.Header,
            Body := card.pngData.Body ++ serializeChunk c } } rest := by
  obtain ⟨hty, hcl, hcrc⟩ := hwf
  rw [serializeChunk_append_eq]
  have hslen : (be32 c.content.length ++
      (be32 c.typeCode ++ (c.content ++ (c.crc ++ rest)))).length =
      c.content.length + rest.length + 12 := by
    simp [List.length_append, be32_length, hcrc]
    omega
  rw [scanChunks_eq_scanLoop ((c.content.length + rest.length + 11) + 1) _ _ _
    (by rw [hslen])]
  rw [scanLoop]
  rw [if_neg (be32_append_ne_nil _ _)]
  have h4 : ¬ (be32 c.content.length ++
      (be32 c.typeCode ++ (c.content ++ (c.crc ++ rest)))).length < 4 := by
    rw [length_be32_append]; omega
  rw [if_neg h4]
  simp only [readBE32_be32_append _ _ hcl]
  simp only [drop4_be32_append]
  rw [if_neg (be32_append_ne_nil _ _)]
  have h8 : ¬ (be32 c.typeCode ++ (c.content ++ (c.crc ++ rest))).length < 4 := by
    rw [length_be32_append]; omega
  rw [if_neg h8]
  simp only [readBE32_be32_append _ _ hty]
  rw [if_pos ht]
  have hlen2 : (c.content ++ (c.crc ++ rest)).length =
      c.content.length + (4 + rest.length) := by
    simp [List.length_append, hcrc]
  have hge : ¬ (c.content ++ (c.crc ++ rest)).length < c.content.length + 4 := by
    rw [hlen2]; omega
  rw [if_neg hge]
  have hcc : (c.content ++ c.crc).length = c.content.length + 4 := by
    simp [List.length_append, hcrc]
  have htake : (c.content ++ (c.crc ++ rest)).take (c.content.length + 4) =
      c.content ++ c.crc := by
    rw [← List.append_assoc]; exact List.take_left' hcc
  have hdrop : (c.content ++ (c.crc ++ rest)).drop (c.content.length + 4) =
      rest := by
    rw [← List.append_assoc]; exact List.drop_left' hcc
  rw [htake, hdrop]
  rw [← scanChunks_eq_scanLoop _ _ _ _ (by omega)]
  congr 2
  simp [serializeChunk, List.append_assoc]

/-- Scanning a serialized tEXt chunk: the chunk bytes are consumed and
never copied to the body; a non-candidate is discarded, a candidate is run
through the criteria and may short-circuit in a non-deep mode. -/
theorem scanChunks_cons_text (mode : ScanMode) (card : RawCard) (c : Chunk)
    (rest : List Nat) (hwf : c.wf) (ht : c.typeCode = chunkTextTypeCode) :
    scanChunks mode card (serializeChunk c ++ rest) =
      (if (isCharaChunk c.content).2 = false then
        scanChunks mode card rest
      else if mode.deepScan = false ∧ (stepCard mode card c).RawCharaData ≠ [] then
        .ok { stepCard mode card c with pngData :=
          { Header := (stepCard mode card c).pngData.Header,
            Body := (stepCard mode card c).pngData.Body ++ rest } }
      else
        scanChunks mode (stepCard mode card c) rest) := by
  obtain ⟨hty, hcl, hcrc⟩ := hwf
  rw [serializeChunk_append_eq]
  have hslen : (be32 c.content.length ++
      (be32 c.typeCode ++ (c.content ++ (c.crc ++ rest)))).length =
      c.content.length + rest.length + 12 := by
    simp [List.length_append, be32_length, hcrc]
    omega
  rw [scanChunks_eq_scanLoop ((c.content.length + rest.length + 11) + 1) _ _ _
    (by rw [hslen])]
  rw [scanLoop]
  rw [if_neg (be32_append_ne_nil _ _)]
  have h4 : ¬ (be32 c.content.length ++
      (be32 c.typeCode ++ (c.content ++ (c.crc ++ rest)))).length < 4 := by
    rw [length_be32_append]; omega
  rw [if_neg h4]
  simp only [readBE32_be32_append _ _ hcl]
  simp only [drop4_be32_append]
  rw [if_neg (be32_append_ne_nil _ _)]
  have h8 : ¬ (be32 c.typeCode ++ (c.content ++ (c.crc ++ rest))).length < 4 := by
    rw [length_be32_append]; omega
  rw [if_neg h8]
  simp only [readBE32_be32_append _ _ hty]
  have htt : ¬ (c.typeCode ≠ chunkTextTypeCode) := by simp [ht]
  rw [if_neg htt]
  have hlen2 : (c.content ++ (c.crc ++ rest)).length =
      c.content.length + (4 + rest.length) := by
    simp [List.length_append, hcrc]
  have hged : ¬ (c.content ++ (c.crc ++ rest)).length < c.content.length := by
    rw [hlen2]; omega
  rw [if_neg hged]
  rw [List.take_left, List.drop_left]
  have hcrcrest : ¬ (c.crc ++ rest).length < 4 := by
    simp [List.length_append, hcrc]
  rw [if_neg hcrcrest]
  rw [List.drop_left' hcrc]
  by_cases hcand : (isCharaChunk c.content).2 = false
  · rw [if_pos hcand, if_pos hcand]
    rw [← scanChunks_eq_scanLoop _ _ _ _ (by omega)]
  · rw [if_neg hcand, if_neg hcand]
    have hstep : acceptChunk mode card c.content = stepCard mode card c := rfl
    rw [hstep]
    rw [← scanChunks_eq_scanLoop _ _ _ _ (by omega)]

theorem scanChunks_nil (mode : ScanMode) (card : RawCard) :
    scanChunks mode card [] = .ok card := by
  rw [scanChunks]
  exact scanLoop_nil _ mode card

/-- The non-payload chunks of a sequence: what the scanner copies into the
body (tEXt chunks, candidate or not, are never copied). -/
def bodyOf (cs : List Chunk) : List Nat :=
  serializeChunks (cs.filter (fun c => c.typeCode != chunkTextTypeCode))

theorem hasPrefixB_length (p l : List Nat) (h : hasPrefixB p l = true) :
    p.length ≤ l.length := by
  induction p generalizing l with
  | nil => simp
  | cons a as ih =>
    cases l with
    | nil => simp [hasPrefixB] at h
    | cons b bs =>
      simp only [hasPrefixB, Bool.and_eq_true] at h
      simp only [List.length_cons]
      exact Nat.succ_le_succ (ih bs h.2)

theorem hasPrefixB_append (p x : List Nat) : hasPrefixB p (p ++ x) = true := by
  induction p with
  | nil => simp [hasPrefixB]
  | cons a as ih => simp [hasPrefixB, ih]

theorem candidate_kwlen_le (c : Chunk) (hc : c.isCandidate = true) :
    keywordsLength (isCharaChunk c.content).1 ≤ c.content.length := by
  have h2 : (isCharaChunk c.content).2 = true := by
    simp only [Chunk.isCandidate, Bool.and_eq_true] at hc
    exact hc.2
  by_cases hnil : c.content = []
  · simp [isCharaChunk, hnil] at h2
  · by_cases hch : hasPrefixB charaKeyword c.content = true
    · have h6 : (6 : Nat) ≤ c.content.length := hasPrefixB_length _ _ hch
      simp only [isCharaChunk, if_neg hnil, if_pos hch]
      simpa [keywordsLength, RevisionV2] using h6
    · by_cases hcc : hasPrefixB ccv3Keyword c.content = true
      · have h5 : (5 : Nat) ≤ c.content.length := hasPrefixB_length _ _ hcc
        simp only [isCharaChunk, if_neg hnil, if_neg hch, if_pos hcc]
        simpa [keywordsLength, RevisionV2, RevisionV3] using h5
      · simp [isCharaChunk, hnil, hch, hcc] at h2

theorem candidate_revision_cases (c : Chunk) (hc : c.isCandidate = true) :
    (isCharaChunk c.content).1 = RevisionV2 ∨ (isCharaChunk c.content).1 = RevisionV3 := by
  have h2 : (isCharaChunk c.content).2 = true := by
    simp only [Chunk.isCandidate, Bool.and_eq_true] at hc
    exact hc.2
  by_cases hnil : c.content = []
  · simp [isCharaChunk, hnil] at h2
  · by_cases hch : hasPrefixB charaKeyword c.content = true
    · left; simp [isCharaChunk, hnil, hch]
    · by_cases hcc : hasPrefixB ccv3Keyword c.content = true
      · right; simp [isCharaChunk, hnil, hch, hcc]
      · simp [isCharaChunk, hnil, hch, hcc] at h2

theorem stripped_length_eq (c : Chunk) :
    c.stripped.length = c.content.length - keywordsLength (isCharaChunk c.content).1 := by
  simp [Chunk.stripped, List.length_drop]

/-- For a recognized candidate, `isLarger` acceptance is exactly a
non-strict comparison on keyword-stripped payload lengths. -/
theorem isLarger_candidate_iff (card : RawCard) (c : Chunk)
    (hc : c.isCandidate = true) :
    evalCriteria Criteria.larger card c.content (isCharaChunk c.content).1 = true ↔
      card.RawCharaData.length ≤ c.stripped.length := by
  have hk := candidate_kwlen_le c hc
  have hs := stripped_length_eq c
  simp only [evalCriteria, isLarger, decide_eq_true_eq, ge_iff_le]
  omega

/-- Scanning a candidate-free well-formed chunk sequence accumulates
exactly its non-tEXt chunks into the body and leaves the held card
otherwise untouched. -/
theorem scanChunks_serialized_noCandidate (mode : ScanMode) (cs : List Chunk)
    (card : RawCard) (tail : List Nat) (hwf : ∀ c ∈ cs, c.wf)
    (hnc : ∀ c ∈ cs, c.isCandidate = false) :
    scanChunks mode card (serializeChunks cs ++ tail) =
      scanChunks mode
        { card with pngData :=
          { Header := card.pngData.Header,
            Body := card.pngData.Body ++ bodyOf cs } } tail := by
  induction cs generalizing card with
  | nil =>
    simp [serializeChunks, bodyOf]
  | cons c cs ih =>
    have hwfc : c.wf := hwf c (by simp)
    have hwfs : ∀ x ∈ cs, x.wf := fun x hx => hwf x (by simp [hx])
    have hncs : ∀ x ∈ cs, x.isCandidate = false := fun x hx => hnc x (by simp [hx])
    rw [serializeChunks, List.append_assoc]
    by_cases ht : c.typeCode = chunkTextTypeCode
    · have hcand : (isCharaChunk c.content).2 = false := by
        have := hnc c (by simp)
        simpa [Chunk.isCandidate, ht] using this
      rw [scanChunks_cons_text mode card c _ hwfc ht, if_pos hcand]
      rw [ih card hwfs hncs]
      have hb : bodyOf (c :: cs) = bodyOf cs := by
        simp [bodyOf, List.filter, ht]
      rw [hb]
    · rw [scanChunks_cons_nonText mode card c _ hwfc ht]
      rw [ih _ hwfs hncs]
      have hb : bodyOf (c :: cs) = serializeChunk c ++ bodyOf cs := by
        simp only [bodyOf, List.filter]
        have : (c.typeCode != chunkTextTypeCode) = true := by
          simpa using ht
        rw [this]
        rfl
      rw [hb]
      simp [List.append_assoc]

/-- Pure fold describing one full deep scan over a serialized chunk
sequence. -/
def scanFold (mode : ScanMode) (card : RawCard) : List Chunk → RawCard
  | [] => card
  | c :: cs =>
    if c.typeCode ≠ chunkTextTypeCode then
      scanFold mode
        { card with pngData :=
          { Header := card.pngData.Header,
            Body := card.pngData.Body ++ serializeChunk c } } cs
    else if (isCharaChunk c.content).2 = false then
      scanFold mode card cs
    else
      scanFold mode (stepCard mode card c) cs

/-- Under a deep-scan mode the scanner runs to the end of the stream and
never errors on a well-formed chunk sequence: it computes `scanFold`. -/
theorem scanChunks_serialized_deep (mode : ScanMode) (cs : List Chunk)
    (card : RawCard) (hdeep : mode.deepScan = true) (hwf : ∀ c ∈ cs, c.wf) :
    scanChunks mode card (serializeChunks cs) = .ok (scanFold mode card cs) := by
  induction cs generalizing card with
  | nil => simp [serializeChunks, scanChunks_nil, scanFold]
  | cons c cs ih =>
    have hwfc : c.wf := hwf c (by simp)
    have hwfs : ∀ x ∈ cs, x.wf := fun x hx => hwf x (by simp [hx])
    rw [serializeChunks]
    by_cases ht : c.typeCode = chunkTextTypeCode
    · rw [scanChunks_cons_text mode card c _ hwfc ht]
      by_cases hcand : (isCharaChunk c.content).2 = false
      · rw [if_pos hcand, ih card hwfs]
        rw [scanFold, if_neg (by simp [ht]), if_pos hcand]
      · rw [if_neg hcand]
        have hnoshort : ¬ (mode.deepScan = false ∧
            (stepCard mode card c).RawCharaData ≠ []) := by
          simp [hdeep]
        rw [if_neg hnoshort, ih _ hwfs]
        rw [scanFold, if_neg (by simp [ht]), if_neg hcand]
    · rw [scanChunks_cons_nonText mode card c _ hwfc ht, ih _ hwfs]
      rw [scanFold, if_pos ht]

/-- The candidate-only fold: how the held payload and revision evolve,
ignoring body reconstruction. -/
def candFold (mode : ScanMode) (card : RawCard) : List Chunk → RawCard
  | [] => card
  | c :: cs => candFold mode (stepCard mode card c) cs

theorem evalCriteria_congr (crit : Criteria) (card₁ card₂ : RawCard)
    (content : List Nat) (rev : Int)
    (h1 : card₁.RawCharaData = card₂.RawCharaData)
    (h2 : card₁.Revision = card₂.Revision) :
    evalCriteria crit card₁ content rev = evalCriteria crit card₂ content rev := by
  cases crit <;> simp [evalCriteria, isLarger, isHigherVersion, h1, h2]

theorem candFold_chara_invariant (mode : ScanMode) (cs : List Chunk) :
    ∀ card₁ card₂ : RawCard, card₁.RawCharaData = card₂.RawCharaData →
      card₁.Revision = card₂.Revision →
      (candFold mode card₁ cs).RawCharaData = (candFold mode card₂ cs).RawCharaData ∧
      (candFold mode card₁ cs).Revision = (candFold mode card₂ cs).Revision := by
  induction cs with
  | nil => intro card₁ card₂ h1 h2; exact ⟨h1, h2⟩
  | cons c cs ih =>
    intro card₁ card₂ h1 h2
    rw [candFold, candFold]
    have hcrit := evalCriteria_congr mode.criteria card₁ card₂ c.content
      (isCharaChunk c.content).1 h1 h2
    by_cases hacc : evalCriteria mode.criteria card₁ c.content
        (isCharaChunk c.content).1 = true
    · have hacc₂ : evalCriteria mode.criteria card₂ c.content
          (isCharaChunk c.content).1 = true := by rw [← hcrit]; exact hacc
      rw [stepCard, acceptChunk, if_pos hacc, stepCard, acceptChunk, if_pos hacc₂]
      exact ih _ _ rfl rfl
    · have hacc₂ : ¬ evalCriteria mode.criteria card₂ c.content
          (isCharaChunk c.content).1 = true := by rw [← hcrit]; exact hacc
      rw [stepCard, acceptChunk, if_neg hacc, stepCard, acceptChunk, if_neg hacc₂]
      exact ih _ _ h1 h2

/-- The payload and revision a deep scan holds are those of the candidate
fold over the recognized candidate chunks. -/
theorem scanFold_chara (mode : ScanMode) (cs : List Chunk) :
    ∀ card : RawCard,
      (scanFold mode card cs).RawCharaData =
        (candFold mode card (cs.filter Chunk.isCandidate)).RawCharaData ∧
      (scanFold mode card cs).Revision =
        (candFold mode card (cs.filter Chunk.isCandidate)).Revision := by
  induction cs with
  | nil => intro card; simp [scanFold, candFold]
  | cons c cs ih =>
    intro card
    by_cases ht : c.typeCode = chunkTextTypeCode
    · by_cases hcand : (isCharaChunk c.content).2 = false
      · have hfc : c.isCandidate = false := by
          simp [Chunk.isCandidate, ht, hcand]
        rw [scanFold, if_neg (by simp [ht]), if_pos hcand]
        have hfilter : (c :: cs).filter Chunk.isCandidate =
            cs.filter Chunk.isCandidate := by
          simp [List.filter, hfc]
        rw [hfilter]
        exact ih card
      · have hfc : c.isCandidate = true := by
          simp only [Chunk.isCandidate, ht, beq_self_eq_true, Bool.true_and]
          simpa using hcand
        rw [scanFold, if_neg (by simp [ht]), if_neg hcand]
        have hfilter : (c :: cs).filter Chunk.isCandidate =
            c :: cs.filter Chunk.isCandidate := by
          simp [List.filter, hfc]
        rw [hfilter, candFold]
        exact ih (stepCard mode card c)
    · have hfc : c.isCandidate = false := by
        simp [Chunk.isCandidate, ht]
      rw [scanFold, if_pos ht]
      have hfilter : (c :: cs).filter Chunk.isCandidate =
          cs.filter Chunk.isCandidate := by
        simp [List.filter, hfc]
      rw [hfilter]
      have hbody := ih { card with pngData :=
        { Header := card.pngData.Header,
          Body := card.pngData.Body ++ serializeChunk c } }
      have hinv := candFold_chara_invariant mode (cs.filter Chunk.isCandidate)
        { card with pngData :=
          { Header := card.pngData.Header,
            Body := card.pngData.Body ++ serializeChunk c } } card rfl rfl
      exact ⟨hbody.1.trans hinv.1, hbody.2.trans hinv.2⟩

/-- Running-max behaviour of the candidate fold under `LastLongest`: either
every candidate is strictly smaller than the held payload and nothing
changes, or the result is the payload of a candidate that is at least as
long as every candidate and strictly longer than every later one. -/
theorem candFold_lastLongest_spec (cs : List Chunk) :
    ∀ card : RawCard, (∀ c ∈ cs, c.isCandidate = true) →
      (candFold LastLongest card cs = card ∧
        ∀ x ∈ cs, x.stripped.length < card.RawCharaData.length) ∨
      (∃ pre w post, cs = pre ++ w :: post ∧
        (candFold LastLongest card cs).RawCharaData = w.stripped ∧
        (candFold LastLongest card cs).Revision = w.revision ∧
        (candFold LastLongest card cs).pngData = card.pngData ∧
        card.RawCharaData.length ≤ w.stripped.length ∧
        (∀ x ∈ cs, x.stripped.length ≤ w.stripped.length) ∧
        (∀ x ∈ post, x.stripped.length < w.stripped.length)) := by
  induction cs with
  | nil =>
    intro card _
    left
    exact ⟨rfl, by simp⟩
  | cons c cs ih =>
    intro card hcand
    have hc : c.isCandidate = true := hcand c (by simp)
    have hcs : ∀ x ∈ cs, x.isCandidate = true := fun x hx => hcand x (by simp [hx])
    rw [candFold]
    by_cases hacc : evalCriteria Criteria.larger card c.content
        (isCharaChunk c.content).1 = true
    · have hle : card.RawCharaData.length ≤ c.stripped.length :=
        (isLarger_candidate_iff card c hc).mp hacc
      have hrcdS : (stepCard LastLongest card c).RawCharaData = c.stripped := by
        rw [stepCard, acceptChunk]
        simp only [LastLongest]
        rw [if_pos hacc]
        rfl
      have hrevS : (stepCard LastLongest card c).Revision = c.revision := by
        rw [stepCard, acceptChunk]
        simp only [LastLongest]
        rw [if_pos hacc]
        rfl
      have hpngS : (stepCard LastLongest card c).pngData = card.pngData := by
        rw [stepCard, acceptChunk]
        simp only [LastLongest]
        rw [if_pos hacc]
      rcases ih (stepCard LastLongest card c) hcs with ⟨heq, hall⟩ | hex
      · right
        refine ⟨[], c, cs, by simp, ?_, ?_, ?_, hle, ?_, ?_⟩
        · rw [heq, hrcdS]
        · rw [heq, hrevS]
        · rw [heq, hpngS]
        · intro x hx
          rcases List.mem_cons.mp hx with hx | hx
          · subst hx; exact Nat.le_refl _
          · have := hall x hx
            rw [hrcdS] at this
            exact Nat.le_of_lt this
        · intro x hx
          have := hall x hx
          rw [hrcdS] at this
          exact this
      · obtain ⟨pre, w, post, hsplit, hrcd, hrev, hpng, hlen, hall, hpost⟩ := hex
        rw [hrcdS] at hlen
        rw [hpngS] at hpng
        right
        refine ⟨c :: pre, w, post, by simp [hsplit], hrcd, hrev, hpng, ?_, ?_, hpost⟩
        · exact Nat.le_trans hle hlen
        · intro x hx
          rcases List.mem_cons.mp hx with hx | hx
          · subst hx; exact hlen
          · exact hall x hx
    · have hlt : c.stripped.length < card.RawCharaData.length := by
        have := (isLarger_candidate_iff card c hc).not.mp hacc
        omega
      have hstep : stepCard LastLongest card c = card := by
        rw [stepCard, acceptChunk]
        simp only [LastLongest]
        rw [if_neg hacc]
      rw [hstep]
      rcases ih card hcs with ⟨heq, hall⟩ | hex
      · left
        refine ⟨heq, ?_⟩
        intro x hx
        rcases List.mem_cons.mp hx with hx | hx
        · subst hx; exact hlt
        · exact hall x hx
      · obtain ⟨pre, w, post, hsplit, hrcd, hrev, hpng, hlen, hall, hpost⟩ := hex
        right
        refine ⟨c :: pre, w, post, by simp [hsplit], hrcd, hrev, hpng, hlen, ?_, hpost⟩
        intro x hx
        rcases List.mem_cons.mp hx with hx | hx
        · subst hx; exact Nat.le_trans (Nat.le_of_lt hlt) hlen
        · exact hall x hx

/-! ## Helper lemmas connecting injection and scanning -/

theorem fromBytesScan_split (mode : ScanMode) (header stream : List Nat)
    (h : header.length = fullIhdrSize) :
    fromBytesScan mode (header ++ stream) = scanGet mode header stream := by
  rw [fromBytesScan, List.take_left' h, List.drop_left' h]

theorem isCharaChunk_chara_append (d : List Nat) :
    isCharaChunk (charaKeyword ++ d) = (RevisionV2, true) := by
  rw [isCharaChunk]
  rw [if_neg (by simp [charaKeyword])]
  rw [if_pos (hasPrefixB_append charaKeyword d)]

theorem hasPrefixB_chara_ccv3 (d : List Nat) :
    hasPrefixB charaKeyword (ccv3Keyword ++ d) = false := by
  simp [charaKeyword, ccv3Keyword, hasPrefixB]

theorem isCharaChunk_ccv3_append (d : List Nat) :
    isCharaChunk (ccv3Keyword ++ d) = (RevisionV3, true) := by
  rw [isCharaChunk]
  rw [if_neg (by simp [ccv3Keyword])]
  rw [if_neg (by simp [hasPrefixB_chara_ccv3])]
  rw [if_pos (hasPrefixB_append ccv3Keyword d)]

theorem drop_kwlen_chara (d : List Nat) :
    (charaKeyword ++ d).drop (keywordsLength RevisionV2) = d := by
  apply List.drop_left'
  simp [charaKeyword, keywordsLength, RevisionV2]

theorem drop_kwlen_ccv3 (d : List Nat) :
    (ccv3Keyword ++ d).drop (keywordsLength RevisionV3) = d := by
  apply List.drop_left'
  simp [ccv3Keyword, keywordsLength, RevisionV2, RevisionV3]

/-- The chunk that `streamCharaChunkBytes` emits, as a `Chunk` record. -/
def injectedChunk (rc : RawCard) : Chunk :=
  { typeCode := chunkTextTypeCode,
    content := (keywords rc.Revision).getD charaKeyword ++ rc.RawCharaData,
    crc := be32 (crcGoUpdate (crcGoUpdate (crcGoUpdate 0 (be32 chunkTextTypeCode))
      ((keywords rc.Revision).getD charaKeyword)) rc.RawCharaData) }

theorem keyword_getD_cases (r : Int) :
    (keywords r).getD charaKeyword = charaKeyword ∨
    (keywords r).getD charaKeyword = ccv3Keyword := by
  rw [keywords]
  by_cases h2 : r = RevisionV2
  · left; rw [if_pos h2]; rfl
  · rw [if_neg h2]
    by_cases h3 : r = RevisionV3
    · right; rw [if_pos h3]; rfl
    · left; rw [if_neg h3]; rfl

theorem streamCharaChunkBytes_eq_serializeChunk (rc : RawCard)
    (hne : rc.RawCharaData ≠ [])
    (hlen : ((keywords rc.Revision).getD charaKeyword).length +
      rc.RawCharaData.length < 4294967296) :
    streamCharaChunkBytes rc = serializeChunk (injectedChunk rc) := by
  rw [streamCharaChunkBytes, if_neg hne]
  rw [serializeChunk, injectedChunk]
  simp only [List.length_append]
  rw [Nat.mod_eq_of_lt hlen]
  simp [List.append_assoc]

theorem injectedChunk_wf (rc : RawCard)
    (hlen : ((keywords rc.Revision).getD charaKeyword).length +
      rc.RawCharaData.length < 4294967296) :
    (injectedChunk rc).wf := by
  refine ⟨by simp [injectedChunk, chunkTextTypeCode], ?_, ?_⟩
  · rw [injectedChunk]
    simpa [List.length_append] using hlen
  · rw [injectedChunk]
    exact be32_length _

theorem injectedChunk_candidate (rc : RawCard) :
    (injectedChunk rc).isCandidate = true := by
  rw [Chunk.isCandidate, injectedChunk]
  simp only [beq_self_eq_true, Bool.true_and]
  rcases keyword_getD_cases rc.Revision with h | h <;> rw [h]
  · rw [isCharaChunk_chara_append]
  · rw [isCharaChunk_ccv3_append]

/-- The payload and revision the scanner reads back from the injected
chunk: the stripped payload is the original `RawCharaData`, and the
revision is the one whose keyword was written (V2 for any revision without
a keyword mapping). -/
theorem injectedChunk_stripped (rc : RawCard) :
    ((injectedChunk rc).stripped = rc.RawCharaData ∧
      ((rc.Revision = RevisionV2 ∨ rc.Revision = RevisionV3) →
        (injectedChunk rc).revision = rc.Revision) ∧
      (rc.Revision ≠ RevisionV2 → rc.Revision ≠ RevisionV3 →
        (injectedChunk rc).revision = RevisionV2)) := by
  have hcases : ((keywords rc.Revision).getD charaKeyword = charaKeyword ∧
      (rc.Revision = RevisionV2 ∨ (rc.Revision ≠ RevisionV2 ∧ rc.Revision ≠ RevisionV3))) ∨
      ((keywords rc.Revision).getD charaKeyword = ccv3Keyword ∧ rc.Revision = RevisionV3) := by
    rw [keywords]
    by_cases h2 : rc.Revision = RevisionV2
    · left
      rw [if_pos h2]
      exact ⟨rfl, Or.inl h2⟩
    · rw [if_neg h2]
      by_cases h3 : rc.Revision = RevisionV3
      · right
        rw [if_pos h3]
        exact ⟨rfl, h3⟩
      · left
        rw [if_neg h3]
        exact ⟨rfl, Or.inr ⟨h2, h3⟩⟩
  rcases hcases with ⟨hk, hrev⟩ | ⟨hk, hrev⟩
  · refine ⟨?_, ?_, ?_⟩
    · rw [Chunk.stripped, injectedChunk]
      simp only [hk]
      rw [isCharaChunk_chara_append]
      exact drop_kwlen_chara _
    · intro hv
      rw [Chunk.revision, injectedChunk]
      simp only [hk]
      rw [isCharaChunk_chara_append]
      rcases hrev with h | ⟨h2, h3⟩
      · rw [h]
      · rcases hv with hv | hv
        · exact absurd hv h2
        · exact absurd hv h3
    · intro _ _
      rw [Chunk.revision, injectedChunk]
      simp only [hk]
      rw [isCharaChunk_chara_append]
  · refine ⟨?_, ?_, ?_⟩
    · rw [Chunk.stripped, injectedChunk]
      simp only [hk]
      rw [isCharaChunk_ccv3_append]
      exact drop_kwlen_ccv3 _
    · intro _
      rw [Chunk.revision, injectedChunk]
      simp only [hk]
      rw [isCharaChunk_ccv3_append, hrev]
    · intro _ h3
      exact absurd hrev h3

theorem candidate_typeCode (c : Chunk) (hc : c.isCandidate = true) :
    c.typeCode = chunkTextTypeCode := by
  simp only [Chunk.isCandidate, Bool.and_eq_true, beq_iff_eq] at hc
  exact hc.1

theorem candidate_isChara (c : Chunk) (hc : c.isCandidate = true) :
    (isCharaChunk c.content).2 = true := by
  simp only [Chunk.isCandidate, Bool.and_eq_true] at hc
  exact hc.2

/-- In `First` mode, a candidate chunk with a non-empty stripped payload
reached with empty held data is accepted and short-circuits: the held card
takes its payload and revision, and the rest of the stream is copied
verbatim into the body with no further parsing. -/
theorem scanChunks_first_candidate (card : RawCard) (c : Chunk) (tail : List Nat)
    (hcwf : c.wf) (hc : c.isCandidate = true) (hheld : card.RawCharaData = [])
    (hne : c.stripped ≠ []) :
    scanChunks First card (serializeChunk c ++ tail) =
      .ok { pngData := { Header := card.pngData.Header,
                         Body := card.pngData.Body ++ tail },
            RawCharaData := c.stripped, Revision := c.revision } := by
  rw [scanChunks_cons_text First card c tail hcwf (candidate_typeCode c hc)]
  rw [if_neg (by simp [candidate_isChara c hc])]
  have hacc : evalCriteria Criteria.larger card c.content
      (isCharaChunk c.content).1 = true := by
    apply (isLarger_candidate_iff card c hc).mpr
    rw [hheld]
    exact Nat.zero_le _
  have hstep : stepCard First card c =
      { pngData := card.pngData, RawCharaData := c.stripped,
        Revision := c.revision } := by
    rw [stepCard, acceptChunk]
    simp only [First]
    rw [if_pos hacc]
    rfl
  have hcond : First.deepScan = false ∧ (stepCard First card c).RawCharaData ≠ [] := by
    refine ⟨rfl, ?_⟩
    rw [hstep]
    exact hne
  rw [if_pos hcond, hstep]

/-- `Get` in `First` mode on a stream whose chunks are a candidate-free
prefix, then a candidate with non-empty payload, then arbitrary tail bytes:
the first candidate wins and the tail is copied byte-for-byte. -/
theorem scanGet_first_candidate (header : List Nat) (pre : List Chunk)
    (c : Chunk) (tail : List Nat) (hwf : ∀ x ∈ pre, x.wf)
    (hnc : ∀ x ∈ pre, x.isCandidate = false) (hcwf : c.wf)
    (hc : c.isCandidate = true) (hne : c.stripped ≠ []) :
    scanGet First header (serializeChunks pre ++ (serializeChunk c ++ tail)) =
      .ok { pngData := { Header := header, Body := bodyOf pre ++ tail },
            RawCharaData := c.stripped, Revision := c.revision } := by
  rw [scanGet]
  rw [scanChunks_serialized_noCandidate First pre _ _ hwf hnc]
  rw [scanChunks_first_candidate _ c tail hcwf hc rfl hne]
  simp

theorem kwlen_le_6 (r : Int) : ((keywords r).getD charaKeyword).length ≤ 6 := by
  rcases keyword_getD_cases r with h | h <;> rw [h] <;> simp [charaKeyword, ccv3Keyword]

/-- `stepCard` under `LastVersion` in terms of the candidate's revision. -/
theorem stepCard_lastVersion (card : RawCard) (c : Chunk) :
    stepCard LastVersion card c =
      if c.revision ≥ card.Revision then
        { pngData := card.pngData, RawCharaData := c.stripped,
          Revision := c.revision }
      else card := by
  rw [stepCard, acceptChunk]
  simp only [LastVersion, evalCriteria, isHigherVersion]
  by_cases h : (isCharaChunk c.content).1 ≥ card.Revision
  · rw [if_pos (by simpa using h)]
    rw [if_pos (by simpa [Chunk.revision] using h)]
    rfl
  · rw [if_neg (by simpa using h)]
    rw [if_neg (by simpa [Chunk.revision] using h)]

theorem candidate_revision_nonneg (c : Chunk) (hc : c.isCandidate = true) :
    0 ≤ c.revision := by
  rcases candidate_revision_cases c hc with h | h <;>
    simp [Chunk.revision, h, RevisionV2, RevisionV3]

/-- Scanning the serialized image of a card with a non-empty payload under
`First` recovers the payload and the revision of whichever keyword was
written. -/
theorem scan_toImage (rc : RawCard) (hne : rc.RawCharaData ≠ [])
    (hhdr : rc.pngData.Header.length = fullIhdrSize)
    (hkwlen : ((keywords rc.Revision).getD charaKeyword).length +
      rc.RawCharaData.length < 4294967296) :
    fromBytesScan First (toImageBytes rc) =
      .ok { pngData := rc.pngData, RawCharaData := rc.RawCharaData,
            Revision := (injectedChunk rc).revision } := by
  have hstr : (injectedChunk rc).stripped = rc.RawCharaData :=
    (injectedChunk_stripped rc).1
  rw [toImageBytes]
  rw [streamCharaChunkBytes_eq_serializeChunk rc hne hkwlen]
  rw [List.append_assoc]
  rw [fromBytesScan_split First _ _ hhdr]
  rw [scanGet]
  rw [scanChunks_first_candidate _ _ _ (injectedChunk_wf rc hkwlen)
    (injectedChunk_candidate rc) rfl (by rw [hstr]; exact hne)]
  rw [hstr]
  simp

/-- A tEXt chunk header declaring more content than remains, with at least
one content byte present, aborts the scan with an error, in every mode,
when no candidate was accepted earlier. -/
theorem scanGet_truncated_text (mode : ScanMode) (header : List Nat)
    (pre : List Chunk) (L : Nat) (cut : List Nat)
    (hwf : ∀ x ∈ pre, x.wf) (hnc : ∀ x ∈ pre, x.isCandidate = false)
    (hL : L < 4294967296) (hpne : cut ≠ []) (hplt : cut.length < L) :
    scanGet mode header
      (serializeChunks pre ++ (be32 L ++ (be32 chunkTextTypeCode ++ cut))) =
      .error () := by
  rw [scanGet]
  rw [scanChunks_serialized_noCandidate mode pre _ _ hwf hnc]
  have hcutpos : 0 < cut.length := List.length_pos.mpr hpne
  rw [scanChunks_eq_scanLoop ((7 + cut.length) + 1) _ _ _ (by
    rw [length_be32_append, length_be32_append]
    omega)]
  rw [scanLoop]
  rw [if_neg (be32_append_ne_nil _ _)]
  rw [if_neg (by rw [length_be32_append]; omega)]
  simp only [readBE32_be32_append _ _ hL]
  simp only [drop4_be32_append]
  rw [if_neg (be32_append_ne_nil _ _)]
  rw [if_neg (by rw [length_be32_append]; omega)]
  have htc : chunkTextTypeCode < 4294967296 := by
    rw [chunkTextTypeCode]; omega
  simp only [readBE32_be32_append _ _ htc]
  rw [if_neg (by simp)]
  rw [if_pos hplt]
  rw [if_neg hpne]

/-! ## Claim theorems -/

/-- A concrete well-formed 33-byte mandatory prefix used by concrete
instantiations: the PNG signature followed by 25 zero bytes standing in for
the IHDR chunk. -/
def stdHeader : List Nat := pngHeader ++ List.replicate 25 0

/-- C8: for every RawCard with empty RawCharaData, ToImage writes no
synthesized chunk at all: the output is exactly Header ++ Body. -/
theorem toImage_empty_payload_writes_no_chunk (rc : RawCard)
    (h : rc.RawCharaData = []) :
    toImageBytes rc = rc.pngData.Header ++ rc.pngData.Body := by
  rw [toImageBytes, streamCharaChunkBytes, if_pos h]
  simp

theorem toImage_empty_payload_writes_no_chunk_witness :
    toImageBytes (⟨⟨[1, 2], [3, 4]⟩, [], 5⟩ : RawCard) = [1, 2] ++ [3, 4] :=
  toImage_empty_payload_writes_no_chunk (⟨⟨[1, 2], [3, 4]⟩, [], 5⟩ : RawCard) rfl

/-- C4: for every RawCard with non-empty RawCharaData, ToImage writes
between Header and Body exactly one synthesized chunk: a big-endian u32
length equal to len(keyword) + len(RawCharaData), the tEXt type code, the
keyword, the payload, and a big-endian CRC32 (IEEE) over exactly
typeCode ++ keyword ++ RawCharaData, the length field excluded. -/
theorem toImage_writes_single_text_chunk_with_crc (rc : RawCard)
    (hne : rc.RawCharaData ≠ [])
    (hlen : ((keywords rc.Revision).getD charaKeyword).length +
      rc.RawCharaData.length < 4294967296) :
    toImageBytes rc =
      rc.pngData.Header ++
        (be32 (((keywords rc.Revision).getD charaKeyword).length +
            rc.RawCharaData.length) ++
          be32 chunkTextTypeCode ++
          (keywords rc.Revision).getD charaKeyword ++
          rc.RawCharaData ++
          be32 (crc32 (be32 chunkTextTypeCode ++
            ((keywords rc.Revision).getD charaKeyword ++ rc.RawCharaData)))) ++
        rc.pngData.Body := by
  rw [toImageBytes, streamCharaChunkBytes, if_neg hne]
  simp only [crc32, crcGoUpdate_append, Nat.mod_eq_of_lt hlen, List.append_assoc]

theorem toImage_writes_single_text_chunk_with_crc_witness :
    toImageBytes (⟨⟨[9], [7]⟩, [65, 66], 2⟩ : RawCard) =
      [9] ++
        (be32 (((keywords 2).getD charaKeyword).length + 2) ++
          be32 chunkTextTypeCode ++ (keywords 2).getD charaKeyword ++
          [65, 66] ++
          be32 (crc32 (be32 chunkTextTypeCode ++
            ((keywords 2).getD charaKeyword ++ [65, 66])))) ++
        [7] :=
  toImage_writes_single_text_chunk_with_crc (⟨⟨[9], [7]⟩, [65, 66], 2⟩ : RawCard)
    (by simp) (by simp [keywords, charaKeyword, RevisionV2])

/-- C2 counterexample: a RawJsonCard holding revision V3 with empty
RawJsonData decodes to the default sheet of RevisionV2 — the fixed revision
V2, not the card's held revision V3. -/
theorem toCharacter_empty_ignores_held_revision_cex :
    RawJsonCard.ToCharacter (fun _ => .error ())
        (⟨⟨[], []⟩, [], RevisionV3⟩ : RawJsonCard) =
      .ok (⟨⟨[], []⟩, some (DefaultSheet RevisionV2)⟩ : CharacterCard) ∧
    (DefaultSheet RevisionV2).Revision = RevisionV2 ∧
    (DefaultSheet RevisionV3).Revision = RevisionV3 ∧
    RevisionV2 ≠ RevisionV3 := by
  refine ⟨rfl, rfl, rfl, by decide⟩

/-- C2 amended: for every RawJsonCard with empty RawJsonData, ToCharacter
succeeds with the non-nil default sheet of RevisionV2, regardless of the
card's held revision. -/
theorem toCharacter_empty_yields_default_v2
    (fromBytes : List Nat → Except Unit Sheet) (rjc : RawJsonCard)
    (h : rjc.RawJsonData = []) :
    RawJsonCard.ToCharacter fromBytes rjc =
      .ok { pngData := rjc.pngData, Sheet := some (DefaultSheet RevisionV2) } := by
  rw [RawJsonCard.ToCharacter, if_pos h]

theorem toCharacter_empty_yields_default_v2_witness :
    RawJsonCard.ToCharacter (fun _ => .error ())
        (⟨⟨[1], [2]⟩, [], 9⟩ : RawJsonCard) =
      .ok (⟨⟨[1], [2]⟩, some (DefaultSheet RevisionV2)⟩ : CharacterCard) :=
  toCharacter_empty_yields_default_v2 (fun _ => .error ())
    (⟨⟨[1], [2]⟩, [], 9⟩ : RawJsonCard) rfl

/-- C10: whenever ToCharacter successfully decodes non-empty RawJsonData,
the resulting sheet's Revision, Spec and Version are overwritten from the
stamp of the card's held revision, discarding whatever the JSON declared;
a held revision outside the Stamps table yields empty Spec and Version. -/
theorem toCharacter_overwrites_stamp_from_held_revision
    (fromBytes : List Nat → Except Unit Sheet) (rjc : RawJsonCard)
    (sheet : Sheet) (hne : rjc.RawJsonData ≠ [])
    (hok : fromBytes rjc.RawJsonData = .ok sheet) :
    RawJsonCard.ToCharacter fromBytes rjc =
      .ok { pngData := rjc.pngData,
            Sheet := some { sheet with
                              Revision := rjc.Revision,
                              Spec := (Stamps rjc.Revision).Spec,
                              Version := (Stamps rjc.Revision).Version } } ∧
    (rjc.Revision ≠ RevisionV2 → rjc.Revision ≠ RevisionV3 →
      (Stamps rjc.Revision).Spec = "" ∧ (Stamps rjc.Revision).Version = "") := by
  constructor
  · rw [RawJsonCard.ToCharacter, if_neg hne, hok]
  · intro h2 h3
    rw [Stamps, if_neg h2, if_neg h3]
    exact ⟨rfl, rfl⟩

theorem toCharacter_overwrites_stamp_from_held_revision_witness :
    (RawJsonCard.ToCharacter (fun _ => .ok (DefaultSheet RevisionV3))
        (⟨⟨[], []⟩, [1], 7⟩ : RawJsonCard) =
      .ok (⟨⟨[], []⟩, some { DefaultSheet RevisionV3 with
                               Revision := (7 : Int),
                               Spec := (Stamps 7).Spec,
                               Version := (Stamps 7).Version }⟩ : CharacterCard) ∧
    ((7 : Int) ≠ RevisionV2 → (7 : Int) ≠ RevisionV3 →
      (Stamps 7).Spec = "" ∧ (Stamps 7).Version = "")) :=
  toCharacter_overwrites_stamp_from_held_revision
    (fun _ => .ok (DefaultSheet RevisionV3))
    (⟨⟨[], []⟩, [1], 7⟩ : RawJsonCard)
    (DefaultSheet RevisionV3) (by simp) rfl

/-- C7: for every RawCard whose Revision has no keyword-table entry
(neither V2 nor V3) and whose RawCharaData is non-empty, ToImage succeeds
using the default V2 keyword, and re-scanning the produced bytes yields
Revision V2 with the same payload, not the original unrecognized value. -/
theorem unknown_revision_falls_back_to_v2 (rc : RawCard)
    (h2 : rc.Revision ≠ RevisionV2) (h3 : rc.Revision ≠ RevisionV3)
    (hne : rc.RawCharaData ≠ [])
    (hhdr : rc.pngData.Header.length = fullIhdrSize)
    (hsig : rc.pngData.Header.take headerSize = pngHeader)
    (hsize : rc.RawCharaData.length + 6 < 4294967296) :
    fromBytesScan First (toImageBytes rc) =
      .ok { pngData := rc.pngData, RawCharaData := rc.RawCharaData,
            Revision := RevisionV2 } ∧
    RevisionV2 ≠ rc.Revision := by
  have hkwlen : ((keywords rc.Revision).getD charaKeyword).length +
      rc.RawCharaData.length < 4294967296 := by
    have := kwlen_le_6 rc.Revision
    omega
  constructor
  · rw [scan_toImage rc hne hhdr hkwlen]
    rw [(injectedChunk_stripped rc).2.2 h2 h3]
  · intro h
    exact h2 h.symm

theorem unknown_revision_falls_back_to_v2_witness :
    (RevisionV2 + 5 ≠ RevisionV2 ∧ RevisionV2 + 5 ≠ RevisionV3 ∧
      ([65] : List Nat) ≠ [] ∧ stdHeader.length = fullIhdrSize ∧
      stdHeader.take headerSize = pngHeader ∧
      ([65] : List Nat).length + 6 < 4294967296) ∧
    (fromBytesScan First (toImageBytes (⟨⟨stdHeader, [7]⟩, [65], RevisionV2 + 5⟩ : RawCard)) =
      .ok { pngData := (⟨stdHeader, [7]⟩ : PngData), RawCharaData := [65],
            Revision := RevisionV2 } ∧
    RevisionV2 ≠ RevisionV2 + 5) :=
  ⟨⟨by decide, by decide, by decide, by decide, by decide, by decide⟩,
    unknown_revision_falls_back_to_v2
      (⟨⟨stdHeader, [7]⟩, [65], RevisionV2 + 5⟩ : RawCard)
      (by decide) (by decide) (by decide) (by decide) (by decide) (by decide)⟩

/-- C1: for every structured record with a non-nil sheet whose JSON
serialization is non-empty and whose revision is V2 or V3, encoding
(JSON-encode then base64-encode), injecting via ToImage, re-scanning the
bytes under the First policy yields a card whose RawCharaData is
byte-identical to the injected card's and whose Revision is the sheet's
revision. -/
theorem round_trip_first_policy (toBytes : Sheet → Except Unit (List Nat))
    (pd : PngData) (sheet : Sheet) (j : List Nat)
    (hj : toBytes sheet = .ok j) (hjne : j ≠ [])
    (hrev : sheet.Revision = RevisionV2 ∨ sheet.Revision = RevisionV3)
    (hhdr : pd.Header.length = fullIhdrSize)
    (hsig : pd.Header.take headerSize = pngHeader)
    (hsize : (b64encode j).length + 6 < 4294967296) :
    ∃ rc card,
      CharacterCard.Encode toBytes (⟨pd, some sheet⟩ : CharacterCard) = .ok rc ∧
      fromBytesScan First (toImageBytes rc) = .ok card ∧
      card.RawCharaData = rc.RawCharaData ∧
      card.Revision = sheet.Revision ∧ rc.RawCharaData ≠ [] := by
  have hb64ne : b64encode j ≠ [] := b64encode_ne_nil j hjne
  have hrc : CharacterCard.Encode toBytes (⟨pd, some sheet⟩ : CharacterCard) =
      .ok (⟨pd, b64encode j, sheet.Revision⟩ : RawCard) := by
    rw [CharacterCard.Encode, CharacterCard.ToRawJson]
    simp only [hj]
    rw [RawJsonCard.ToRaw]
    simp only [hjne]
    rfl
  have hk6 := kwlen_le_6 sheet.Revision
  have hkwlen : ((keywords sheet.Revision).getD charaKeyword).length +
      (b64encode j).length < 4294967296 := by omega
  refine ⟨⟨pd, b64encode j, sheet.Revision⟩,
    ⟨pd, b64encode j,
      (injectedChunk (⟨pd, b64encode j, sheet.Revision⟩ : RawCard)).revision⟩,
    hrc, ?_, rfl, ?_, hb64ne⟩
  · exact scan_toImage (⟨pd, b64encode j, sheet.Revision⟩ : RawCard)
      hb64ne hhdr hkwlen
  · exact (injectedChunk_stripped
      (⟨pd, b64encode j, sheet.Revision⟩ : RawCard)).2.1 hrev

theorem round_trip_first_policy_witness :
    ∃ rc card,
      CharacterCard.Encode (fun _ => .ok [123, 125])
        (⟨⟨stdHeader, []⟩, some (DefaultSheet RevisionV2)⟩ : CharacterCard) = .ok rc ∧
      fromBytesScan First (toImageBytes rc) = .ok card ∧
      card.RawCharaData = rc.RawCharaData ∧
      card.Revision = (DefaultSheet RevisionV2).Revision ∧ rc.RawCharaData ≠ [] :=
  round_trip_first_policy (fun _ => .ok [123, 125]) ⟨stdHeader, []⟩
    (DefaultSheet RevisionV2) [123, 125] rfl (by decide) (Or.inl rfl)
    (by decide) (by decide) (by decide)

/-- First candidate chunk of the C3 counterexample: a recognized tEXt chunk
whose content is exactly the V2 keyword, so its stripped payload is empty. -/
def cexChunkA : Chunk := ⟨chunkTextTypeCode, charaKeyword, [0, 0, 0, 0]⟩

/-- Second candidate chunk: V2 keyword followed by one payload byte. -/
def cexChunkB : Chunk := ⟨chunkTextTypeCode, charaKeyword ++ [88], [0, 0, 0, 0]⟩

/-- C3 counterexample: a stream whose first recognized candidate chunk has
an empty stripped payload does not short-circuit; Get under First returns
the later candidate's payload, not the first-encountered candidate's. -/
theorem first_policy_empty_first_candidate_cex :
    cexChunkA.isCandidate = true ∧ cexChunkA.stripped = [] ∧
    cexChunkB.isCandidate = true ∧ cexChunkB.stripped = [88] ∧
    fromBytesScan First (stdHeader ++ serializeChunks [cexChunkA, cexChunkB]) =
      .ok (⟨⟨stdHeader, []⟩, [88], RevisionV2⟩ : RawCard) ∧
    ([88] : List Nat) ≠ ([] : List Nat) := by
  refine ⟨rfl, rfl, rfl, rfl, rfl, by decide⟩

/-- C3 amended: under First, for every stream made of a candidate-free
well-formed chunk prefix, then a recognized candidate whose stripped
payload is non-empty, then arbitrary tail bytes, Get returns that first
candidate's payload and revision, and the tail is copied byte-for-byte
into Body without further chunk parsing. -/
theorem first_policy_returns_first_nonempty_candidate (header : List Nat)
    (pre : List Chunk) (c : Chunk) (tail : List Nat)
    (hhdr : header.length = fullIhdrSize)
    (hsig : header.take headerSize = pngHeader)
    (hwf : ∀ x ∈ pre, x.wf) (hnc : ∀ x ∈ pre, x.isCandidate = false)
    (hcwf : c.wf) (hc : c.isCandidate = true) (hne : c.stripped ≠ []) :
    fromBytesScan First
        (header ++ (serializeChunks pre ++ (serializeChunk c ++ tail))) =
      .ok { pngData := { Header := header, Body := bodyOf pre ++ tail },
            RawCharaData := c.stripped, Revision := c.revision } := by
  rw [fromBytesScan_split First _ _ hhdr]
  exact scanGet_first_candidate header pre c tail hwf hnc hcwf hc hne

theorem first_policy_returns_first_nonempty_candidate_witness :
    fromBytesScan First
        (stdHeader ++ (serializeChunks [] ++ (serializeChunk cexChunkB ++ [5, 6]))) =
      .ok { pngData := { Header := stdHeader, Body := bodyOf [] ++ [5, 6] },
            RawCharaData := cexChunkB.stripped, Revision := cexChunkB.revision } :=
  first_policy_returns_first_nonempty_candidate stdHeader [] cexChunkB [5, 6]
    (by decide) (by decide) (by simp) (by simp) (by decide) (by decide) (by decide)

/-- C9 counterexample: a non-tEXt chunk header declaring 100 content bytes
with only 2 remaining makes Get return ok, with the truncated chunk bytes
copied into Body — not an error. -/
theorem truncated_nontext_chunk_no_error_cex :
    ([1, 2] : List Nat).length < 100 ∧
    fromBytesScan First (stdHeader ++ (be32 100 ++ be32 0x49444154 ++ [1, 2])) =
      .ok (⟨⟨stdHeader, be32 100 ++ be32 0x49444154 ++ [1, 2]⟩, [], 0⟩ : RawCard) := by
  exact ⟨by decide, rfl⟩

/-- C9 amended: a tEXt chunk header declaring more content than the bytes
remaining, with at least one content byte present, reached before any
candidate chunk, makes Get return an error in every scan mode; a truncated
non-tEXt chunk is instead copied as-is and the scan ends without error. -/
theorem truncated_text_chunk_errors (mode : ScanMode) (header : List Nat)
    (pre : List Chunk) (L : Nat) (cut : List Nat)
    (hhdr : header.length = fullIhdrSize)
    (hsig : header.take headerSize = pngHeader)
    (hwf : ∀ x ∈ pre, x.wf) (hnc : ∀ x ∈ pre, x.isCandidate = false)
    (hL : L < 4294967296) (hpne : cut ≠ []) (hplt : cut.length < L) :
    fromBytesScan mode
        (header ++ (serializeChunks pre ++
          (be32 L ++ (be32 chunkTextTypeCode ++ cut)))) = .error () := by
  rw [fromBytesScan_split mode _ _ hhdr]
  exact scanGet_truncated_text mode header pre L cut hwf hnc hL hpne hplt

theorem truncated_text_chunk_errors_witness :
    fromBytesScan First
        (stdHeader ++ (serializeChunks [] ++
          (be32 100 ++ (be32 chunkTextTypeCode ++ [1])))) = .error () :=
  truncated_text_chunk_errors First stdHeader [] 100 [1]
    (by decide) (by decide) (by simp) (by simp) (by decide) (by decide) (by decide)

/-- C5: under LastLongest, on every stream of well-formed chunks with at
least one recognized candidate, Get returns the stripped payload of a
candidate whose length dominates every candidate's (non-strictly) and
strictly dominates every later candidate's: the payload is of maximal
stripped length and ties favor the later chunk. -/
theorem lastLongest_selects_maximal_payload (header : List Nat)
    (cs : List Chunk) (hhdr : header.length = fullIhdrSize)
    (hsig : header.take headerSize = pngHeader)
    (hwf : ∀ x ∈ cs, x.wf) (hne : cs.filter Chunk.isCandidate ≠ []) :
    ∃ card, fromBytesScan LastLongest (header ++ serializeChunks cs) = .ok card ∧
      ∃ pre w post, cs.filter Chunk.isCandidate = pre ++ w :: post ∧
        card.RawCharaData = w.stripped ∧ card.Revision = w.revision ∧
        (∀ x ∈ cs.filter Chunk.isCandidate,
          x.stripped.length ≤ w.stripped.length) ∧
        (∀ x ∈ post, x.stripped.length < w.stripped.length) := by
  rw [fromBytesScan_split LastLongest _ _ hhdr, scanGet]
  rw [scanChunks_serialized_deep LastLongest cs _ rfl hwf]
  refine ⟨scanFold LastLongest (⟨⟨header, []⟩, [], 0⟩ : RawCard) cs, rfl, ?_⟩
  obtain ⟨hrcd, hrev⟩ :=
    scanFold_chara LastLongest cs (⟨⟨header, []⟩, [], 0⟩ : RawCard)
  have hfc : ∀ x ∈ cs.filter Chunk.isCandidate, x.isCandidate = true :=
    fun x hx => (List.mem_filter.mp hx).2
  rcases candFold_lastLongest_spec (cs.filter Chunk.isCandidate)
      (⟨⟨header, []⟩, [], 0⟩ : RawCard) hfc with
    ⟨_heq, hall⟩ | ⟨pre, w, post, hsplit, hr1, hr2, _hr3, _hb, hle, hpost⟩
  · exfalso
    obtain ⟨x, hx⟩ := List.exists_mem_of_ne_nil _ hne
    exact Nat.not_lt_zero _ (hall x hx)
  · exact ⟨pre, w, post, hsplit, hrcd.trans hr1, hrev.trans hr2, hle, hpost⟩

theorem lastLongest_selects_maximal_payload_witness :
    ∃ card,
      fromBytesScan LastLongest
        (stdHeader ++ serializeChunks [cexChunkA, cexChunkB]) = .ok card ∧
      ∃ pre w post,
        ([cexChunkA, cexChunkB] : List Chunk).filter Chunk.isCandidate =
          pre ++ w :: post ∧
        card.RawCharaData = w.stripped ∧ card.Revision = w.revision ∧
        (∀ x ∈ ([cexChunkA, cexChunkB] : List Chunk).filter Chunk.isCandidate,
          x.stripped.length ≤ w.stripped.length) ∧
        (∀ x ∈ post, x.stripped.length < w.stripped.length) :=
  lastLongest_selects_maximal_payload stdHeader [cexChunkA, cexChunkB]
    (by decide) (by decide) (by decide) (by decide)

/-- C6: under LastVersion, for every stream of well-formed chunks with
exactly two recognized candidates of revisions 2 and 3 in either order, Get
returns the revision-3 chunk's payload; and with two equal-revision
candidates the later-encountered one wins, since acceptance compares only
candidateRevision >= held.Revision. -/
theorem lastVersion_selects_highest_revision (header : List Nat)
    (cs : List Chunk) (a b : Chunk) (hhdr : header.length = fullIhdrSize)
    (hsig : header.take headerSize = pngHeader)
    (hwf : ∀ x ∈ cs, x.wf)
    (hfilter : cs.filter Chunk.isCandidate = [a, b]) :
    ∃ card, fromBytesScan LastVersion (header ++ serializeChunks cs) = .ok card ∧
      (a.revision = RevisionV2 ∧ b.revision = RevisionV3 →
        card.Revision = RevisionV3 ∧ card.RawCharaData = b.stripped) ∧
      (a.revision = RevisionV3 ∧ b.revision = RevisionV2 →
        card.Revision = RevisionV3 ∧ card.RawCharaData = a.stripped) ∧
      (a.revision = b.revision → card.RawCharaData = b.stripped) := by
  rw [fromBytesScan_split LastVersion _ _ hhdr, scanGet]
  rw [scanChunks_serialized_deep LastVersion cs _ rfl hwf]
  refine ⟨scanFold LastVersion (⟨⟨header, []⟩, [], 0⟩ : RawCard) cs, rfl, ?_⟩
  obtain ⟨hrcd, hrev⟩ :=
    scanFold_chara LastVersion cs (⟨⟨header, []⟩, [], 0⟩ : RawCard)
  rw [hfilter] at hrcd hrev
  have ha : a.isCandidate = true := by
    have : a ∈ cs.filter Chunk.isCandidate := by
      rw [hfilter]; exact List.mem_cons_self a [b]
    exact (List.mem_filter.mp this).2
  have hcf : candFold LastVersion (⟨⟨header, []⟩, [], 0⟩ : RawCard) [a, b] =
      stepCard LastVersion
        (stepCard LastVersion (⟨⟨header, []⟩, [], 0⟩ : RawCard) a) b := rfl
  have hstepa : stepCard LastVersion (⟨⟨header, []⟩, [], 0⟩ : RawCard) a =
      (⟨⟨header, []⟩, a.stripped, a.revision⟩ : RawCard) := by
    rw [stepCard_lastVersion]
    rw [if_pos (candidate_revision_nonneg a ha)]
  rw [hcf, hstepa] at hrcd hrev
  refine ⟨?_, ?_, ?_⟩
  · rintro ⟨ha2, hb3⟩
    have hstepb : stepCard LastVersion
        (⟨⟨header, []⟩, a.stripped, a.revision⟩ : RawCard) b =
        (⟨⟨header, []⟩, b.stripped, b.revision⟩ : RawCard) := by
      rw [stepCard_lastVersion]
      rw [if_pos (by show b.revision ≥ a.revision; rw [hb3, ha2]; decide)]
    rw [hstepb] at hrcd hrev
    exact ⟨hrev.trans hb3, hrcd⟩
  · rintro ⟨ha3, hb2⟩
    have hstepb : stepCard LastVersion
        (⟨⟨header, []⟩, a.stripped, a.revision⟩ : RawCard) b =
        (⟨⟨header, []⟩, a.stripped, a.revision⟩ : RawCard) := by
      rw [stepCard_lastVersion]
      rw [if_neg (by show ¬ b.revision ≥ a.revision; rw [hb2, ha3]; decide)]
    rw [hstepb] at hrcd hrev
    exact ⟨hrev.trans ha3, hrcd⟩
  · intro hab
    have hstepb : stepCard LastVersion
        (⟨⟨header, []⟩, a.stripped, a.revision⟩ : RawCard) b =
        (⟨⟨header, []⟩, b.stripped, b.revision⟩ : RawCard) := by
      rw [stepCard_lastVersion]
      rw [if_pos (by show b.revision ≥ a.revision; rw [hab])]
    rw [hstepb] at hrcd
    exact hrcd

theorem lastVersion_selects_highest_revision_witness :
    ∃ card,
      fromBytesScan LastVersion
        (stdHeader ++ serializeChunks
          [⟨chunkTextTypeCode, charaKeyword ++ [65], [0, 0, 0, 0]⟩,
           ⟨chunkTextTypeCode, ccv3Keyword ++ [66], [0, 0, 0, 0]⟩]) = .ok card ∧
      ((⟨chunkTextTypeCode, charaKeyword ++ [65], [0, 0, 0, 0]⟩ : Chunk).revision =
          RevisionV2 ∧
        (⟨chunkTextTypeCode, ccv3Keyword ++ [66], [0, 0, 0, 0]⟩ : Chunk).revision =
          RevisionV3 →
        card.Revision = RevisionV3 ∧
        card.RawCharaData =
          (⟨chunkTextTypeCode, ccv3Keyword ++ [66], [0, 0, 0, 0]⟩ : Chunk).stripped) ∧
      ((⟨chunkTextTypeCode, charaKeyword ++ [65], [0, 0, 0, 0]⟩ : Chunk).revision =
          RevisionV3 ∧
        (⟨chunkTextTypeCode, ccv3Keyword ++ [66], [0, 0, 0, 0]⟩ : Chunk).revision =
          RevisionV2 →
        card.Revision = RevisionV3 ∧
        card.RawCharaData =
          (⟨chunkTextTypeCode, charaKeyword ++ [65], [0, 0, 0, 0]⟩ : Chunk).stripped) ∧
      ((⟨chunkTextTypeCode, charaKeyword ++ [65], [0, 0, 0, 0]⟩ : Chunk).revision =
          (⟨chunkTextTypeCode, ccv3Keyword ++ [66], [0, 0, 0, 0]⟩ : Chunk).revision →
        card.RawCharaData =
          (⟨chunkTextTypeCode, ccv3Keyword ++ [66], [0, 0, 0, 0]⟩ : Chunk).stripped) :=
  lastVersion_selects_highest_revision stdHeader
    [⟨chunkTextTypeCode, charaKeyword ++ [65], [0, 0, 0, 0]⟩,
     ⟨chunkTextTypeCode, ccv3Keyword ++ [66], [0, 0, 0, 0]⟩]
    ⟨chunkTextTypeCode, charaKeyword ++ [65], [0, 0, 0, 0]⟩
    ⟨chunkTextTypeCode, ccv3Keyword ++ [66], [0, 0, 0, 0]⟩
    (by decide) (by decide) (by decide) (by decide)

end CardParser
